import Mathlib

/-!
Verification development for the per-table anonymization pipeline of
`pganonymizer` (`src/pganonymizer/utils.py`).  The Python functions are
shallowly embedded as Lean definitions: rows are association lists from
column names to typed values, database effects are represented by the data
they produce (lists of fetched rows, lists of executed SQL strings), and
fallible Python code (exceptions raised by `re`, `psycopg2`, dict indexing)
is embedded with `Except`.
-/

namespace PgAnon

/-- Typed database values flowing through the pipeline: null, text, integer,
boolean, or a structured (JSON-like) mapping.  This is the closed variant
type that a `psycopg2` row cell can hold in this code base. -/
inductive Value where
  | VNull  : Value
  | VStr   : String → Value
  | VInt   : Int → Value
  | VBool  : Bool → Value
  | VDict  : List (String × Value) → Value

/-- A data row: an ordered mapping from column name to value
(`psycopg2.extras.DictRow`). -/
abbrev Row := List (String × Value)

/-- First-match lookup in an ordered mapping (Python `d[k]` / `d.get(k)`
returning an optional result). -/
def lookupVal : Row → String → Option Value
  | [], _ => none
  | (k, v) :: rest, c => if k = c then some v else lookupVal rest c

/-- `row.get(name)`: a missing key yields Python `None`, i.e. `VNull`. -/
def pyGet (row : Row) (c : String) : Value :=
  (lookupVal row c).getD Value.VNull

/-- `d[k] = v` on a Python mapping: update the entry in place, appending a
new entry when the key is absent.  (In the pipeline the key is always
present in a `DictRow`, where this coincides with item assignment; for the
`column_dict` built by `get_column_values` the append branch is dict
insertion order.) -/
def setItem : Row → String → Value → Row
  | [], c, v => [(c, v)]
  | (k, w) :: rest, c, v =>
      if k = c then (k, v) :: rest else (k, w) :: setItem rest c v

/-- The keys of an ordered mapping, in order. -/
def keysOf (r : Row) : List String := r.map Prod.fst

/-- Python truthiness test `not orig_value` on a database value: `None`,
empty string, zero, `False` and an empty structured value are all falsy. -/
def pyFalsy : Value → Bool
  | .VNull => true
  | .VStr s => s = ""
  | .VInt n => n = 0
  | .VBool b => !b
  | .VDict fs => fs.isEmpty

/-- One `fields` entry of a table definition: the column name (the single
key of the YAML dict), the provider configuration and the optional literal
`append` suffix. -/
structure ColumnRule where
  name : String
  provider : Option String
  append : Option String

/-- Modelled from the spec: the provider collaborator (module
`pganonymizer.providers`, not under `src/`) exposes for a configuration a
single capability `alter_value` mapping one original value to one
replacement value; replacements are text, which is what the literal
`append` suffix is concatenated onto.  The whole catalog is abstracted as
a function from the configuration in the rule to that capability. -/
abbrev ProviderMap := Option String → Value → String

/-- One step of the `for definition in columns` loop of
`get_column_values`: skip the column when the original value is falsy
(`if not orig_value: continue`), otherwise store
`provider.alter_value(orig) + (append when truthy)` under the column name.
(`value + append` is skipped when `append` is falsy, which coincides with
appending the empty string.) -/
def gcvStep (gp : ProviderMap) (row : Row) (acc : Row) (d : ColumnRule) : Row :=
  let orig := pyGet row d.name
  if pyFalsy orig then acc
  else setItem acc d.name (Value.VStr (gp d.provider orig ++ d.append.getD ""))

/-- `get_column_values(row, columns)`: the dictionary of altered fields for
a single data row, built in rule order. -/
def get_column_values (gp : ProviderMap) (row : Row) (cols : List ColumnRule) : Row :=
  cols.foldl (gcvStep gp row) []

/-- `for key, value in row_column_dict.items(): row[key] = value` — overlay
a dictionary of altered values onto a row. -/
def applyDict (row : Row) (dict : Row) : Row :=
  dict.foldl (fun r kv => setItem r kv.1 kv.2) row

/-- Modelled from the spec: exclude patterns are regular expressions
handed to Python `re` (external to `src/`).  The abstract syntax covers
literal characters, the any-character class, alternation, concatenation
and repetition; `void` is the regex with no matches (used for failed
character derivatives). -/
inductive Regex where
  | void  : Regex
  | eps   : Regex
  | chr   : Char → Regex
  | any   : Regex
  | alt   : Regex → Regex → Regex
  | cat   : Regex → Regex → Regex
  | star  : Regex → Regex

/-- Does the regex accept the empty string? -/
def nullable : Regex → Bool
  | .void => false
  | .eps => true
  | .chr _ => false
  | .any => false
  | .alt r₁ r₂ => nullable r₁ || nullable r₂
  | .cat r₁ r₂ => nullable r₁ && nullable r₂
  | .star _ => true

/-- Brzozowski derivative with `re.IGNORECASE` semantics: a literal
character compares case-insensitively with the consumed input character. -/
def derivCI : Regex → Char → Regex
  | .void, _ => .void
  | .eps, _ => .void
  | .chr a, c => if a.toLower = c.toLower then .eps else .void
  | .any, _ => .eps
  | .alt r₁ r₂, c => .alt (derivCI r₁ c) (derivCI r₂ c)
  | .cat r₁ r₂, c =>
      if nullable r₁ then .alt (.cat (derivCI r₁ c) r₂) (derivCI r₂ c)
      else .cat (derivCI r₁ c) r₂
  | .star r, c => .cat (derivCI r c) (.star r)

/-- `pattern.match(s)` viewed as a boolean: does the regex match some
prefix of `s`, anchored at the start of the string? -/
def matchPre : Regex → List Char → Bool
  | r, [] => nullable r
  | r, c :: cs => nullable r || matchPre (derivCI r c) cs

/-- A raw pattern string of an exclude definition as fed to `re.compile`:
either it compiles to a regex or compilation raises `re.error`. -/
inductive Pat where
  | ok : Regex → Pat
  | bad : Pat

/-- The Python exceptions the embedded fragments can raise: `re.error`
from `re.compile`, `TypeError` from matching a non-string, `KeyError`
from indexing a row with an unknown column. -/
inductive PyErr where
  | reError : PyErr
  | typeError : PyErr
  | keyError : PyErr

/-- `re.compile(exclude, re.IGNORECASE)`. -/
def compilePat : Pat → Except PyErr Regex
  | .ok r => .ok r
  | .bad => .error .reError

/-- One exclude definition: the column name (the single key of the YAML
dict) and its ordered pattern list. -/
structure ExcludeRule where
  column : String
  patterns : List Pat

/-- The inner `for exclude in definition.get(column, [])` loop of
`row_matches_excludes`: compile the pattern, then evaluate
`row[column] is not None and pattern.match(row[column])`; a hit returns
`True`, otherwise the next pattern is tried.  Indexing a missing column
raises `KeyError`; matching a non-null non-string value raises
`TypeError`. -/
def patsCheck (row : Row) (col : String) : List Pat → Except PyErr Bool
  | [] => .ok false
  | p :: ps =>
      match compilePat p with
      | .error e => .error e
      | .ok r =>
          match lookupVal row col with
          | none => .error .keyError
          | some .VNull => patsCheck row col ps
          | some (.VStr s) =>
              if matchPre r s.data then .ok true else patsCheck row col ps
          | some _ => .error .typeError

/-- `row_matches_excludes(row, excludes)`: whether a row matches a list of
field exclusion patterns; a hit in any definition returns `True` at once. -/
def row_matches_excludes (row : Row) : List ExcludeRule → Except PyErr Bool
  | [] => .ok false
  | e :: es =>
      match patsCheck row e.column e.patterns with
      | .error err => .error err
      | .ok true => .ok true
      | .ok false => row_matches_excludes row es

/-- `process_row(row, columns, excludes)`: `none` is the excluded-row
sentinel (Python `None`); otherwise the row with the altered column values
overlaid. -/
def process_row (gp : ProviderMap) (row : Row) (cols : List ColumnRule)
    (excludes : List ExcludeRule) : Except PyErr (Option Row) :=
  match row_matches_excludes row excludes with
  | .error e => .error e
  | .ok true => .ok none
  | .ok false => .ok (some (applyDict row (get_column_values gp row cols)))

/-- `int(math.ceil((1.0 * total_count) / (1.0 * chunk_size)))` — the
batch-count computed by `build_and_then_import_data` (exact for natural
inputs and a positive chunk size). -/
def pyCeilBatches (total chunk : Nat) : Nat := (total + chunk - 1) / chunk

/-- The fetch loop of `build_and_then_import_data`: at most `n` iterations
(`for i in trange(batches)`), each fetching the next `chunk` rows
(`cursor.fetchmany(size=chunk_size)`) from the remaining stream and
breaking as soon as a fetch comes back empty. -/
def fetchBatches (rows : List Row) : Nat → Nat → List (List Row)
  | 0, _ => []
  | n + 1, chunk =>
      let records := rows.take chunk
      if records.isEmpty then []
      else records :: fetchBatches (rows.drop chunk) n chunk

/-- All rows the chunked reader hands to the transformation stage for a
table whose cursor yields `rows`, given the up-front `total` count and the
chunk size. -/
def readRows (rows : List Row) (total chunk : Nat) : List Row :=
  (fetchBatches rows (pyCeilBatches total chunk) chunk).flatten

/-- `parmap.map(process_row, records, columns, excludes)` over one batch:
every row is transformed independently; an exception in any row aborts the
batch (and with it the table). -/
def processBatch (gp : ProviderMap) (cols : List ColumnRule)
    (excludes : List ExcludeRule) : List Row → Except PyErr (List (Option Row))
  | [] => .ok []
  | r :: rs =>
      match process_row gp r cols excludes with
      | .error e => .error e
      | .ok o =>
          match processBatch gp cols excludes rs with
          | .error e => .error e
          | .ok os => .ok (o :: os)

/-- The body of the per-table loop after each fetch: transform the batch,
then import the non-`None` results (`filter(None, data)`) into the staging
table; the result is all staging-table content in load order. -/
def loadBatches (gp : ProviderMap) (cols : List ColumnRule)
    (excludes : List ExcludeRule) : List (List Row) → Except PyErr (List Row)
  | [] => .ok []
  | b :: bs =>
      match processBatch gp cols excludes b with
      | .error e => .error e
      | .ok data =>
          match loadBatches gp cols excludes bs with
          | .error e => .error e
          | .ok rest => .ok (data.filterMap id ++ rest)

/-- The rows loaded into the staging table over the whole per-table loop of
`build_and_then_import_data`, for a table whose cursor yields `rows`. -/
def stagedRows (gp : ProviderMap) (cols : List ColumnRule)
    (excludes : List ExcludeRule) (rows : List Row) (total chunk : Nat) :
    Except PyErr (List Row) :=
  loadBatches gp cols excludes (fetchBatches rows (pyCeilBatches total chunk) chunk)

/-- Does a raw pattern compile? (The well-formedness the spec's
definition-load phase would demand.) -/
def patCompiles : Pat → Bool
  | .ok _ => true
  | .bad => false

/-- Is an optional cell value either absent-as-null or text — the shapes on
which exclude matching is defined without raising? -/
def textOrNull : Option Value → Bool
  | some .VNull => true
  | some (.VStr _) => true
  | _ => false

/-- A row/exclude-list pair on which `row_matches_excludes` cannot raise:
every pattern compiles and every exclude column holds null or text. -/
def excludesWellFormed (row : Row) (excludes : List ExcludeRule) : Bool :=
  excludes.all (fun e =>
    e.patterns.all patCompiles && textOrNull (lookupVal row e.column))

/-- One pattern hit as the claim words it: the column value is present,
non-null and textual, and the compiled pattern matches it from its start
(case-insensitively). -/
def patHit (p : Pat) (v : Option Value) : Bool :=
  match p, v with
  | .ok r, some (.VStr s) => matchPre r s.data
  | _, _ => false

/-- The exclusion condition exactly as the claim words it: some exclude
rule names a column whose value is non-null and is matched by at least one
of that rule's patterns. -/
def specExcluded (row : Row) (excludes : List ExcludeRule) : Bool :=
  excludes.any (fun e => e.patterns.any (fun p => patHit p (lookupVal row e.column)))

/-- Python `', '.join(parts)`. -/
def joinSep (sep : String) : List String → String
  | [] => ""
  | [x] => x
  | x :: y :: rest => x ++ sep ++ joinSep sep (y :: rest)

/-- The `CREATE INDEX` statement issued by `apply_anonymized_data`. -/
def create_index_sql (temp_table primary_key : String) : String :=
  "CREATE INDEX ON \"" ++ temp_table ++ "\" (\"" ++ primary_key ++ "\")"

/-- The single `UPDATE` statement issued by `apply_anonymized_data`:
one `SET` item per field definition, the source table joined with the
staging table on the primary key. -/
def update_sql (source_table temp_table primary_key : String)
    (definitions : List ColumnRule) : String :=
  let column_names := definitions.map (fun d => "\"" ++ d.name ++ "\"")
  let set_columns := joinSep ", " (column_names.map (fun c => c ++ " = s." ++ c))
  "UPDATE \"" ++ source_table ++ "\" t SET " ++ set_columns ++
    " FROM \"" ++ temp_table ++ "\" s WHERE t.\"" ++ primary_key ++
    "\" = s.\"" ++ primary_key ++ "\";"

/-- `apply_anonymized_data`, embedded as the ordered list of SQL
statements it executes on its cursor. -/
def apply_anonymized_data (temp_table source_table primary_key : String)
    (definitions : List ColumnRule) : List String :=
  [create_index_sql temp_table primary_key,
   update_sql source_table temp_table primary_key definitions]

/-- The merge statement's `SET` list as the spec words it: one
`"column" = s."column"` item per rule column, comma-separated, built by
direct recursion over the rule list. -/
def specSetClauses : List ColumnRule → String
  | [] => ""
  | [d] => "\"" ++ d.name ++ "\"" ++ " = s." ++ ("\"" ++ d.name ++ "\"")
  | d :: rest =>
      "\"" ++ d.name ++ "\"" ++ " = s." ++ ("\"" ++ d.name ++ "\"") ++ ", " ++
        specSetClauses rest

/-- Python `str.strip()` whitespace test (the ASCII whitespace characters;
exotic Unicode spaces do not occur in this development). -/
def pyIsSpace (c : Char) : Bool :=
  c = ' ' || c = '\t' || c = '\n' || c = '\r' || c = '\x0b' || c = '\x0c'

/-- Python `str.strip()`: drop leading and trailing whitespace. -/
def pyStrip (s : String) : String :=
  String.mk (((s.data.dropWhile pyIsSpace).reverse.dropWhile pyIsSpace).reverse)

/-- Python `str.replace(old, new)` for a one-character `old` (the only
shape the source uses): substitute every occurrence of the character. -/
def replace1 (c : Char) (repl : String) (s : String) : String :=
  String.join (s.data.map (fun d => if d = c then repl else String.singleton d))

/-- `escape_str_replace(text)`: escape backslash first, then newline,
carriage return and tab, each becoming a two-character backslash escape. -/
def escape_str_replace (text : String) : String :=
  replace1 '\t' "\\t" (replace1 '\r' "\\r" (replace1 '\n' "\\n"
    (replace1 '\\' "\\\\" text)))

/-- Lowercase hexadecimal digit. -/
def hexDigit (n : Nat) : Char :=
  if n < 10 then Char.ofNat (48 + n) else Char.ofNat (87 + n % 16)

/-- Four lowercase hexadecimal digits (for JSON `\uXXXX` escapes). -/
def hex4 (n : Nat) : String :=
  String.mk [hexDigit (n / 4096 % 16), hexDigit (n / 256 % 16),
             hexDigit (n / 16 % 16), hexDigit (n % 16)]

/-- `json.dumps` escaping of one character inside a JSON string, with the
default `ensure_ascii=True` (basic-plane characters; the pipeline's test
values are ASCII). -/
def jsonEscChar (c : Char) : String :=
  if c = '"' then "\\\""
  else if c = '\\' then "\\\\"
  else if c = '\n' then "\\n"
  else if c = '\r' then "\\r"
  else if c = '\t' then "\\t"
  else if c = '\x08' then "\\b"
  else if c = '\x0c' then "\\f"
  else if c.toNat < 32 || c.toNat > 126 then "\\u" ++ hex4 c.toNat
  else String.singleton c

/-- A JSON string literal as `json.dumps` renders it. -/
def jsonQuote (s : String) : String :=
  "\"" ++ String.join (s.data.map jsonEscChar) ++ "\""

mutual

/-- `json.dumps(x)` with default separators (`", "` between items,
`": "` after keys), over the value model. -/
def jsonVal : Value → String
  | .VNull => "null"
  | .VStr s => jsonQuote s
  | .VInt n => toString n
  | .VBool b => if b then "true" else "false"
  | .VDict fs => "\x7b" ++ joinSep ", " (jsonFields fs) ++ "\x7d"

/-- The rendered `key: value` members of a JSON object. -/
def jsonFields : List (String × Value) → List String
  | [] => []
  | (k, v) :: rest => (jsonQuote k ++ ": " ++ jsonVal v) :: jsonFields rest

end

/-- The per-value conversion of the `for x in row` loop in `data2csv`:
null becomes the two-character `\N`, strings are stripped then escaped,
dicts are JSON-serialized then escaped, anything else is kept for the csv
writer to stringify (`str(x)`: Python renders integers in decimal and
booleans as `True`/`False`). -/
def csvFieldOfValue : Value → String
  | .VNull => "\\N"
  | .VStr s => escape_str_replace (pyStrip s)
  | .VDict fs => escape_str_replace (jsonVal (.VDict fs))
  | .VInt n => toString n
  | .VBool b => if b then "True" else "False"

/-- When does `csv.writer` (QUOTE_MINIMAL) quote a field, for the dialect
the source configures (`delimiter=sep`, `quotechar='~'`,
`lineterminator='\n'`): the field contains the delimiter, the quote
character, or a line-terminator character. -/
def needsQuote (sep : Char) (f : String) : Bool :=
  f.data.any (fun c => c = sep || c = '~' || c = '\n')

/-- One rendered field: quoted (with the embedded quote character doubled)
exactly when the dialect requires it. -/
def renderField (sep : Char) (f : String) : String :=
  if needsQuote sep f then "~" ++ replace1 '~' "~~" f ++ "~" else f

/-- `csv.writer(...).writerow(fields)` for the source's dialect: fields
joined by the delimiter and terminated by `'\n'`, with QUOTE_MINIMAL
quoting; a record that is a single empty field is written as the quoted
empty string. -/
def csvRow (sep : Char) (fields : List String) : String :=
  if fields = [""] then "~~" ++ "\n"
  else joinSep (String.singleton sep) (fields.map (renderField sep)) ++ "\n"

/-- `data2csv(data)`: accumulate one csv line per row into the string
buffer and return the buffer's contents. -/
def data2csv (sep : Char) (data : List (List Value)) : String :=
  data.foldl (fun buf row => buf ++ csvRow sep (row.map csvFieldOfValue)) ""

/-- The encoding exactly as claim C3 states it: the same per-value
conversion, fields joined by the configured delimiter, each row terminated
by a newline — and nothing else (no quoting). -/
def claimData2csv (sep : Char) (data : List (List Value)) : String :=
  String.join (data.map (fun row =>
    joinSep (String.singleton sep) (row.map csvFieldOfValue) ++ "\n"))

/-- The claimed encoding amended by the csv-dialect quoting the source's
writer actually performs. -/
def amendedData2csv (sep : Char) (data : List (List Value)) : String :=
  String.join (data.map (fun row => csvRow sep (row.map csvFieldOfValue)))

/-- Rows on which no quoting can trigger: no field equals the
single-empty-field record and no field contains the delimiter or the
quote character. -/
def rowsBenign (sep : Char) (data : List (List Value)) : Bool :=
  data.all (fun row =>
    let fields := row.map csvFieldOfValue
    decide (fields ≠ [""]) && fields.all (fun f => !needsQuote sep f))

/-- Modelled from the spec: `COPY_DB_DELIMITER` lives in
`pganonymizer.constants` (not under `src/`); the spec fixes it only as a
single control character unlikely to appear in real data. -/
def copyDelim : Char := Char.ofNat 31

/-- The `psycopg2` error classes that `cursor.copy_from` can raise: the
two caught by the source, or any other driver error. -/
inductive PgDriverError where
  | badCopyFileFormat : PgDriverError
  | invalidTextRepresentation : PgDriverError
  | otherError : Nat → PgDriverError

/-- What the source's `copy_from` lets escape: the wrapping
`BadDataFormat(exc)`, or the driver error propagating unchanged. -/
inductive CopyError where
  | badDataFormat : PgDriverError → CopyError
  | raw : PgDriverError → CopyError

/-- `copy_from(connection, data, table)`, given the outcome of the
underlying `cursor.copy_from` call: `BadCopyFileFormat` and
`InvalidTextRepresentation` are re-raised as `BadDataFormat(exc)`, every
other outcome passes through. -/
def copy_from (outcome : Except PgDriverError Unit) : Except CopyError Unit :=
  match outcome with
  | .ok u => .ok u
  | .error .badCopyFileFormat => .error (.badDataFormat .badCopyFileFormat)
  | .error .invalidTextRepresentation =>
      .error (.badDataFormat .invalidTextRepresentation)
  | .error e => .error (.raw e)

/-! ## Supporting lemmas -/

lemma lookupVal_setItem_self (r : Row) (k : String) (v : Value) :
    lookupVal (setItem r k v) k = some v := by
  induction r with
  | nil => simp [setItem, lookupVal]
  | cons kv rest ih =>
      obtain ⟨k', w⟩ := kv
      by_cases h : k' = k
      · subst h; simp [setItem, lookupVal]
      · simp [setItem, lookupVal, h, ih]

lemma lookupVal_setItem_other (r : Row) (k c : String) (v : Value)
    (h : k ≠ c) : lookupVal (setItem r k v) c = lookupVal r c := by
  induction r with
  | nil => simp [setItem, lookupVal, h]
  | cons kv rest ih =>
      obtain ⟨k', w⟩ := kv
      by_cases h2 : k' = k
      · subst h2
        simp only [setItem, if_pos rfl]
        by_cases h3 : k' = c
        · exact absurd h3 h
        · simp [lookupVal, h3]
      · simp only [setItem, if_neg h2]
        by_cases h3 : k' = c <;> simp [lookupVal, h3, ih]

lemma lookupVal_none_iff (d : Row) (c : String) :
    lookupVal d c = none ↔ ∀ kv ∈ d, kv.1 ≠ c := by
  induction d with
  | nil => simp [lookupVal]
  | cons kv rest ih =>
      obtain ⟨k, v⟩ := kv
      by_cases h : k = c <;> simp [lookupVal, h, ih]

lemma mem_keys_setItem (r : Row) (k a : String) (v : Value) :
    a ∈ keysOf (setItem r k v) → a ∈ keysOf r ∨ a = k := by
  induction r with
  | nil => simp [setItem, keysOf]
  | cons kv rest ih =>
      obtain ⟨k', w⟩ := kv
      by_cases h : k' = k
      · subst h; simp [setItem, keysOf]
        intro hmem
        rcases hmem with h1 | h1
        · exact Or.inl (Or.inl h1)
        · exact Or.inl (Or.inr h1)
      · simp only [setItem, if_neg h, keysOf, List.map_cons, List.mem_cons]
        intro hmem
        rcases hmem with h1 | h1
        · exact Or.inl (Or.inl h1)
        · rcases ih h1 with h2 | h2
          · exact Or.inl (Or.inr h2)
          · exact Or.inr h2

lemma nodup_keys_setItem (r : Row) (k : String) (v : Value)
    (h : (keysOf r).Nodup) : (keysOf (setItem r k v)).Nodup := by
  induction r with
  | nil => simp [setItem, keysOf]
  | cons kv rest ih =>
      obtain ⟨k', w⟩ := kv
      simp only [keysOf, List.map_cons, List.nodup_cons] at h
      by_cases h2 : k' = k
      · subst h2
        simpa [setItem, keysOf, List.nodup_cons] using h
      · simp only [setItem, if_neg h2, keysOf, List.map_cons, List.nodup_cons]
        refine ⟨?_, ih h.2⟩
        intro hmem
        rcases mem_keys_setItem rest k k' v hmem with h3 | h3
        · exact h.1 h3
        · exact h2 h3

lemma applyDict_lookup_of_not_mem (dict : Row) (c : String)
    (h : ∀ kv ∈ dict, kv.1 ≠ c) :
    ∀ row : Row, lookupVal (applyDict row dict) c = lookupVal row c := by
  induction dict with
  | nil => intro row; rfl
  | cons kv rest ih =>
      intro row
      have h1 : kv.1 ≠ c := h kv (by simp)
      have h2 : ∀ kv' ∈ rest, kv'.1 ≠ c := fun kv' hm => h kv' (by simp [hm])
      show lookupVal (applyDict (setItem row kv.1 kv.2) rest) c = lookupVal row c
      rw [ih h2, lookupVal_setItem_other _ _ _ _ h1]

lemma applyDict_lookup_of_nodup (dict : Row) (c : String) (v : Value)
    (hnd : (keysOf dict).Nodup) (hl : lookupVal dict c = some v) :
    ∀ row : Row, lookupVal (applyDict row dict) c = some v := by
  induction dict with
  | nil => simp [lookupVal] at hl
  | cons kv rest ih =>
      intro row
      obtain ⟨k, w⟩ := kv
      simp only [keysOf, List.map_cons, List.nodup_cons] at hnd
      show lookupVal (applyDict (setItem row k w) rest) c = some v
      by_cases h : k = c
      · subst h
        have hv : w = v := by simpa [lookupVal] using hl
        subst hv
        have hmem : ∀ kv' ∈ rest, kv'.1 ≠ k := by
          intro kv' hm hk
          exact hnd.1 (hk ▸ List.mem_map_of_mem Prod.fst hm)
        rw [applyDict_lookup_of_not_mem rest k hmem, lookupVal_setItem_self]
      · have hl' : lookupVal rest c = some v := by simpa [lookupVal, h] using hl
        exact ih hnd.2 hl' (setItem row k w)

lemma gcv_go_not_named (gp : ProviderMap) (row : Row) (c : String) :
    ∀ (cols : List ColumnRule) (acc : Row), c ∉ cols.map ColumnRule.name →
      lookupVal (cols.foldl (gcvStep gp row) acc) c = lookupVal acc c := by
  intro cols
  induction cols with
  | nil => intro acc _; rfl
  | cons d rest ih =>
      intro acc hc
      simp only [List.map_cons, List.mem_cons, not_or] at hc
      obtain ⟨h1, h2⟩ := hc
      show lookupVal (rest.foldl (gcvStep gp row) (gcvStep gp row acc d)) c =
        lookupVal acc c
      rw [ih _ h2]
      unfold gcvStep
      by_cases hf : pyFalsy (pyGet row d.name)
      · simp [hf]
      · simp [hf, lookupVal_setItem_other _ _ _ _ (Ne.symm h1)]

lemma gcv_go_falsy (gp : ProviderMap) (row : Row) (c : String)
    (hf : pyFalsy (pyGet row c) = true) :
    ∀ (cols : List ColumnRule) (acc : Row), lookupVal acc c = none →
      lookupVal (cols.foldl (gcvStep gp row) acc) c = none := by
  intro cols
  induction cols with
  | nil => intro acc h; exact h
  | cons d rest ih =>
      intro acc h
      show lookupVal (rest.foldl (gcvStep gp row) (gcvStep gp row acc d)) c = none
      apply ih
      unfold gcvStep
      by_cases hd : d.name = c
      · rw [hd]
        simp [hf, h]
      · by_cases hfd : pyFalsy (pyGet row d.name) <;>
          simp [hfd, h, lookupVal_setItem_other _ _ _ _ hd]

lemma gcv_nodup (gp : ProviderMap) (row : Row) (cols : List ColumnRule) :
    (keysOf (get_column_values gp row cols)).Nodup := by
  have hgen : ∀ (cs : List ColumnRule) (acc : Row), (keysOf acc).Nodup →
      (keysOf (cs.foldl (gcvStep gp row) acc)).Nodup := by
    intro cs
    induction cs with
    | nil => intro acc h; exact h
    | cons d rest ih =>
        intro acc h
        show (keysOf (rest.foldl (gcvStep gp row) (gcvStep gp row acc d))).Nodup
        apply ih
        unfold gcvStep
        by_cases hf : pyFalsy (pyGet row d.name) <;>
          simp [hf, h, nodup_keys_setItem]
  exact hgen cols [] (by simp [keysOf])

lemma process_row_ok_some (gp : ProviderMap) (row : Row)
    (cols : List ColumnRule) (excludes : List ExcludeRule) (r' : Row)
    (h : process_row gp row cols excludes = .ok (some r')) :
    r' = applyDict row (get_column_values gp row cols) := by
  unfold process_row at h
  cases hm : row_matches_excludes row excludes with
  | error e => rw [hm] at h; exact absurd h (by simp)
  | ok b =>
      rw [hm] at h
      cases b with
      | true => simp at h
      | false => simp at h; exact h.symm

lemma gcv_falsy_conclusions (gp : ProviderMap) (row : Row)
    (cols : List ColumnRule) (excludes : List ExcludeRule) (c : String)
    (hf : pyFalsy (pyGet row c) = true) :
    lookupVal (get_column_values gp row cols) c = none ∧
    (∀ r', process_row gp row cols excludes = .ok (some r') →
      pyGet r' c = pyGet row c) := by
  have h0 : lookupVal (get_column_values gp row cols) c = none :=
    gcv_go_falsy gp row c hf cols [] rfl
  refine ⟨h0, ?_⟩
  intro r' hok
  rw [process_row_ok_some gp row cols excludes r' hok]
  unfold pyGet
  rw [applyDict_lookup_of_not_mem _ _ ((lookupVal_none_iff _ _).mp h0) row]

lemma gcv_go_unique (gp : ProviderMap) (row : Row) (c : String)
    (d0 : ColumnRule) (ht : pyFalsy (pyGet row c) = false) :
    ∀ (cols : List ColumnRule) (acc : Row),
      cols.filter (fun d => d.name = c) = [d0] →
      lookupVal (cols.foldl (gcvStep gp row) acc) c =
        some (Value.VStr (gp d0.provider (pyGet row c) ++ d0.append.getD "")) := by
  intro cols
  induction cols with
  | nil => intro acc h; simp at h
  | cons d rest ih =>
      intro acc h
      show lookupVal (rest.foldl (gcvStep gp row) (gcvStep gp row acc d)) c = _
      by_cases hd : d.name = c
      · rw [List.filter_cons_of_pos (by simpa using hd)] at h
        simp only [List.cons.injEq] at h
        obtain ⟨hd0, hrest⟩ := h
        have hnotin : c ∉ rest.map ColumnRule.name := by
          intro hmem
          obtain ⟨d', hd', hname⟩ := List.mem_map.mp hmem
          have := (List.filter_eq_nil_iff.mp hrest) d' hd'
          simp [hname] at this
        rw [gcv_go_not_named gp row c rest _ hnotin]
        subst hd0
        unfold gcvStep
        rw [hd]
        simp only [ht, Bool.false_eq_true, if_false, lookupVal_setItem_self]
      · rw [List.filter_cons_of_neg (by simpa using hd)] at h
        exact ih _ h

lemma fetchBatches_nil (n chunk : Nat) : fetchBatches [] n chunk = [] := by
  cases n with
  | zero => rfl
  | succ n => simp [fetchBatches]

lemma ceil_mul_ge (total chunk : Nat) (h : 0 < chunk) :
    total ≤ pyCeilBatches total chunk * chunk := by
  cases total with
  | zero => exact Nat.zero_le _
  | succ t =>
      have hdiv : pyCeilBatches (t + 1) chunk = t / chunk + 1 := by
        unfold pyCeilBatches
        have h1 : t + 1 + chunk - 1 = t + chunk := by omega
        rw [h1, Nat.add_div_right t h]
      have h2 : t < (t / chunk + 1) * chunk := by
        calc t = chunk * (t / chunk) + t % chunk := (Nat.div_add_mod t chunk).symm
          _ < chunk * (t / chunk) + chunk := Nat.add_lt_add_left (Nat.mod_lt t h) _
          _ = (t / chunk + 1) * chunk := by ring
      rw [hdiv]
      omega

lemma fetchBatches_flatten (chunk : Nat) (h : 0 < chunk) :
    ∀ (n : Nat) (rows : List Row),
      (fetchBatches rows n chunk).flatten = rows.take (n * chunk) := by
  intro n
  induction n with
  | zero => intro rows; simp [fetchBatches]
  | succ n ih =>
      intro rows
      cases rows with
      | nil => simp [fetchBatches_nil]
      | cons r rs =>
          have hne : ((r :: rs).take chunk).isEmpty = false := by
            cases chunk with
            | zero => omega
            | succ k => simp [List.take]
          simp only [fetchBatches, hne, Bool.false_eq_true, if_false,
            List.flatten_cons, ih]
          rw [show (n + 1) * chunk = chunk + n * chunk by ring, List.take_add]

lemma fetchBatches_length_le (chunk : Nat) :
    ∀ (n : Nat) (rows : List Row), ∀ b ∈ fetchBatches rows n chunk,
      b.length ≤ chunk := by
  intro n
  induction n with
  | zero => intro rows b hb; simp [fetchBatches] at hb
  | succ n ih =>
      intro rows b hb
      by_cases he : (rows.take chunk).isEmpty
      · simp [fetchBatches, he] at hb
      · simp only [fetchBatches, he, Bool.false_eq_true, if_false,
          List.mem_cons] at hb
        rcases hb with hb | hb
        · subst hb
          calc (rows.take chunk).length = min chunk rows.length :=
                List.length_take ..
            _ ≤ chunk := Nat.min_le_left ..
        · exact ih (rows.drop chunk) b hb

/-! ## Claims about the chunked reader (C1) -/

/-- C1 counterexample: the up-front total row count does influence which
rows are read.  On a one-row table with chunk size 1, a total count of 0
stages nothing (the loop runs zero batches) while a total count of 1
stages the row, so the claim that any two values of `total_count` read and
load the same set of rows is false. -/
theorem C1_counterexample :
    stagedRows (fun _ _ => "") [] [] [[("id", Value.VInt 1)]] 0 1 = .ok [] ∧
    stagedRows (fun _ _ => "") [] [] [[("id", Value.VInt 1)]] 1 1 =
      .ok [[("id", Value.VInt 1)]] ∧
    ([] : List Row) ≠ [[("id", Value.VInt 1)]] := by
  refine ⟨rfl, rfl, ?_⟩
  simp

/-- C1 (amended): for every table the reader fetches batches of at most
`chunk_size` rows and stops early when a fetch returns an empty batch, but
the loop itself is bounded by `ceil(total_count / chunk_size)` iterations,
so exactly the first `ceil(total_count / chunk_size) * chunk_size` rows of
the cursor are read; whenever `total_count` is at least the number of rows
the cursor yields (as when it is the table's true row count), every row is
read and the empty fetch is the exhaustion signal. -/
theorem C1_amended_reader (rows : List Row) (total chunk : Nat)
    (h : 0 < chunk) :
    readRows rows total chunk = rows.take (pyCeilBatches total chunk * chunk) ∧
    (∀ b ∈ fetchBatches rows (pyCeilBatches total chunk) chunk,
      b.length ≤ chunk) ∧
    (rows.length ≤ total → readRows rows total chunk = rows) := by
  refine ⟨fetchBatches_flatten chunk h _ rows,
    fetchBatches_length_le chunk _ rows, ?_⟩
  intro hl
  show (fetchBatches rows (pyCeilBatches total chunk) chunk).flatten = rows
  rw [fetchBatches_flatten chunk h _ rows]
  exact List.take_of_length_le (le_trans hl (ceil_mul_ge total chunk h))

/-- C1 witness: on a three-row table with chunk size 2 and a correct total
count of 3, the reader returns all three rows. -/
theorem C1_amended_reader_witness :
    (0 : Nat) < 2 ∧
    readRows [[("id", Value.VInt 1)], [("id", Value.VInt 2)],
      [("id", Value.VInt 3)]] 3 2 =
      [[("id", Value.VInt 1)], [("id", Value.VInt 2)], [("id", Value.VInt 3)]] :=
  ⟨by decide, (C1_amended_reader _ 3 2 (by decide)).2.2 (by decide)⟩

/-! ## Claims about the merge-back step (C5) -/

lemma joinSep_specSetClauses (defs : List ColumnRule) :
    joinSep ", " ((defs.map (fun d => "\"" ++ d.name ++ "\"")).map
      (fun c => c ++ " = s." ++ c)) = specSetClauses defs := by
  induction defs with
  | nil => rfl
  | cons d rest ih =>
      cases rest with
      | nil => rfl
      | cons e t =>
          simp only [List.map_cons, joinSep, specSetClauses]
          simp only [List.map_cons] at ih
          rw [ih]

/-- C5: the merge-back step executes exactly two statements, in order: a
`CREATE INDEX` on the staging table's identifying column, then one
`UPDATE` that sets `source.column = staging.column` for every configured
rule column, joining source and staging on equality of the identifying
column; nothing else is executed there, so no other statement of the step
writes to the source table. -/
theorem C5_merge_statements (temp source pk : String)
    (defs : List ColumnRule) :
    apply_anonymized_data temp source pk defs =
      ["CREATE INDEX ON \"" ++ temp ++ "\" (\"" ++ pk ++ "\")",
       "UPDATE \"" ++ source ++ "\" t SET " ++ specSetClauses defs ++
         " FROM \"" ++ temp ++ "\" s WHERE t.\"" ++ pk ++ "\" = s.\"" ++
         pk ++ "\";"] := by
  simp only [apply_anonymized_data, create_index_sql, update_sql,
    joinSep_specSetClauses]

/-! ## Claims about the bulk-load error conversion (C7) -/

/-- C7: `copy_from` re-raises the bulk loader's `BadCopyFileFormat` and
`InvalidTextRepresentation` errors as the distinct `BadDataFormat` error,
and exactly those; every other driver error propagates unconverted, and a
successful copy raises nothing. -/
theorem C7_copy_from_conversion (e : PgDriverError) :
    (copy_from (.error e) = .error (.badDataFormat e) ↔
      (e = .badCopyFileFormat ∨ e = .invalidTextRepresentation)) ∧
    (copy_from (.error e) = .error (.raw e) ↔
      ¬(e = .badCopyFileFormat ∨ e = .invalidTextRepresentation)) ∧
    copy_from (.ok ()) = .ok () := by
  cases e <;> simp [copy_from]

/-- C7 witness: a malformed-line error is wrapped, a connectivity-style
error is not. -/
theorem C7_copy_from_conversion_witness :
    copy_from (.error PgDriverError.badCopyFileFormat) =
      .error (.badDataFormat .badCopyFileFormat) ∧
    copy_from (.error (PgDriverError.otherError 0)) =
      .error (.raw (.otherError 0)) :=
  ⟨(C7_copy_from_conversion _).1.mpr (Or.inl rfl),
   (C7_copy_from_conversion _).2.1.mpr (by simp)⟩

/-! ## Claims about the row transformer (C2, C6, C9, C10) -/

/-- C2 counterexample: an empty string is non-null, yet `get_column_values`
skips it (`if not orig_value`), so the processed row keeps the empty string
instead of the claimed `provider.alter_value(original) + append`. -/
theorem C2_counterexample :
    pyGet [("e", Value.VStr "")] "e" ≠ Value.VNull ∧
    process_row (fun _ _ => "X") [("e", Value.VStr "")]
      [⟨"e", some "md5", some "@x"⟩] [] = .ok (some [("e", Value.VStr "")]) ∧
    lookupVal (get_column_values (fun _ _ => "X") [("e", Value.VStr "")]
      [⟨"e", some "md5", some "@x"⟩]) "e" = none ∧
    Value.VStr "" ≠
      Value.VStr ((fun _ _ => "X" : ProviderMap) (some "md5")
        (pyGet [("e", Value.VStr "")] "e") ++ "@x") := by
  refine ⟨?_, rfl, rfl, ?_⟩
  · show Value.VStr "" ≠ Value.VNull
    intro h
    exact Value.noConfusion h
  · show Value.VStr "" ≠ Value.VStr "X@x"
    intro h
    injection h with h2
    exact absurd h2 (by decide)

/-- C2 (amended): for every non-excluded row and rule column whose original
value is truthy (non-null and non-empty — Python's `if not orig_value`
test), the output mapping holds exactly
`provider.alter_value(original) + (append or "")` for that column, and the
processed row carries that value. -/
theorem C2_amended_transform (gp : ProviderMap) (row : Row)
    (cols : List ColumnRule) (excludes : List ExcludeRule) (c : String)
    (d0 : ColumnRule) (hu : cols.filter (fun d => d.name = c) = [d0])
    (ht : pyFalsy (pyGet row c) = false) :
    lookupVal (get_column_values gp row cols) c =
      some (Value.VStr (gp d0.provider (pyGet row c) ++ d0.append.getD "")) ∧
    (∀ r', process_row gp row cols excludes = .ok (some r') →
      pyGet r' c = Value.VStr (gp d0.provider (pyGet row c) ++ d0.append.getD "")) := by
  have h1 : lookupVal (get_column_values gp row cols) c =
      some (Value.VStr (gp d0.provider (pyGet row c) ++ d0.append.getD "")) :=
    gcv_go_unique gp row c d0 ht cols [] hu
  refine ⟨h1, ?_⟩
  intro r' hok
  rw [process_row_ok_some gp row cols excludes r' hok]
  unfold pyGet
  rw [applyDict_lookup_of_nodup _ _ _ (gcv_nodup gp row cols) h1 row]
  rfl

/-- C2 witness: a truthy value is transformed and suffixed. -/
theorem C2_amended_transform_witness :
    lookupVal (get_column_values (fun _ _ => "H") [("e", Value.VStr "bob")]
      [⟨"e", some "md5", some "@x"⟩]) "e" = some (Value.VStr "H@x") :=
  (C2_amended_transform (fun _ _ => "H") [("e", Value.VStr "bob")]
    [⟨"e", some "md5", some "@x"⟩] [] "e" ⟨"e", some "md5", some "@x"⟩
    rfl rfl).1

/-- C6: a rule column whose original value is null or the empty string is
skipped: it is absent from the output mapping of `get_column_values`, and
a non-excluded processed row keeps its original value for that column. -/
theorem C6_skip_null_empty (gp : ProviderMap) (row : Row)
    (cols : List ColumnRule) (excludes : List ExcludeRule) (c : String)
    (h : pyGet row c = Value.VNull ∨ pyGet row c = Value.VStr "") :
    lookupVal (get_column_values gp row cols) c = none ∧
    (∀ r', process_row gp row cols excludes = .ok (some r') →
      pyGet r' c = pyGet row c) := by
  have hf : pyFalsy (pyGet row c) = true := by
    rcases h with h | h <;> rw [h] <;> rfl
  exact gcv_falsy_conclusions gp row cols excludes c hf

/-- C6 witness: an empty-string column survives processing unchanged. -/
theorem C6_skip_null_empty_witness :
    lookupVal (get_column_values (fun _ _ => "H")
      [("e", Value.VStr ""), ("id", Value.VInt 1)]
      [⟨"e", some "md5", some "@x"⟩]) "e" = none ∧
    pyGet [("e", Value.VStr ""), ("id", Value.VInt 1)] "e" =
      pyGet [("e", Value.VStr ""), ("id", Value.VInt 1)] "e" :=
  ⟨(C6_skip_null_empty (fun _ _ => "H") [("e", Value.VStr ""), ("id", Value.VInt 1)]
      [⟨"e", some "md5", some "@x"⟩] [] "e" (Or.inr rfl)).1,
   (C6_skip_null_empty (fun _ _ => "H") [("e", Value.VStr ""), ("id", Value.VInt 1)]
      [⟨"e", some "md5", some "@x"⟩] [] "e" (Or.inr rfl)).2
      [("e", Value.VStr ""), ("id", Value.VInt 1)] rfl⟩

/-- C9: transformation only overlays the rule columns — a non-excluded
processed row agrees with the original row on every column not named by a
`ColumnRule` (the identifying column included, whenever it is not itself a
rule column). -/
theorem C9_frame (gp : ProviderMap) (row : Row) (cols : List ColumnRule)
    (excludes : List ExcludeRule) (r' : Row) (c : String)
    (hok : process_row gp row cols excludes = .ok (some r'))
    (hc : c ∉ cols.map ColumnRule.name) :
    pyGet r' c = pyGet row c := by
  rw [process_row_ok_some gp row cols excludes r' hok]
  have h0 : lookupVal (get_column_values gp row cols) c = none := by
    unfold get_column_values
    rw [gcv_go_not_named gp row c cols [] hc]
    rfl
  unfold pyGet
  rw [applyDict_lookup_of_not_mem _ _ ((lookupVal_none_iff _ _).mp h0) row]

/-- C9 witness: the identifying column of a processed row is untouched. -/
theorem C9_frame_witness :
    process_row (fun _ _ => "A") [("id", Value.VInt 7), ("email", Value.VStr "x")]
      [⟨"email", some "md5", none⟩] [] =
      .ok (some [("id", Value.VInt 7), ("email", Value.VStr "A")]) ∧
    pyGet [("id", Value.VInt 7), ("email", Value.VStr "A")] "id" =
      pyGet [("id", Value.VInt 7), ("email", Value.VStr "x")] "id" :=
  ⟨rfl,
   C9_frame (fun _ _ => "A") [("id", Value.VInt 7), ("email", Value.VStr "x")]
     [⟨"email", some "md5", none⟩] [] _ "id" rfl (by decide)⟩

/-- C10: `get_column_values` skips every falsy original value, not only
null and the empty string — the number 0, the boolean `False` and an empty
structured value are likewise absent from the output mapping, and a
non-excluded processed row keeps its original value for those columns. -/
theorem C10_skip_falsy (gp : ProviderMap) (row : Row)
    (cols : List ColumnRule) (excludes : List ExcludeRule) (c : String)
    (h : pyGet row c = Value.VInt 0 ∨ pyGet row c = Value.VBool false ∨
      pyGet row c = Value.VDict []) :
    lookupVal (get_column_values gp row cols) c = none ∧
    (∀ r', process_row gp row cols excludes = .ok (some r') →
      pyGet r' c = pyGet row c) := by
  have hf : pyFalsy (pyGet row c) = true := by
    rcases h with h | h | h <;> rw [h] <;> rfl
  exact gcv_falsy_conclusions gp row cols excludes c hf

/-- C10 witness: a zero-valued rule column survives processing unchanged. -/
theorem C10_skip_falsy_witness :
    lookupVal (get_column_values (fun _ _ => "H") [("n", Value.VInt 0)]
      [⟨"n", some "md5", none⟩]) "n" = none ∧
    pyGet [("n", Value.VInt 0)] "n" = pyGet [("n", Value.VInt 0)] "n" :=
  ⟨(C10_skip_falsy (fun _ _ => "H") [("n", Value.VInt 0)]
      [⟨"n", some "md5", none⟩] [] "n" (Or.inl rfl)).1,
   (C10_skip_falsy (fun _ _ => "H") [("n", Value.VInt 0)]
      [⟨"n", some "md5", none⟩] [] "n" (Or.inl rfl)).2
      [("n", Value.VInt 0)] rfl⟩

/-! ## Claims about the exclude filter (C4, C8) -/

lemma patHit_iff (p : Pat) (v : Option Value) :
    patHit p v = true ↔ ∃ r s, p = Pat.ok r ∧ v = some (Value.VStr s) ∧
      matchPre r s.data = true := by
  cases p with
  | bad => simp [patHit]
  | ok r =>
      cases v with
      | none => simp [patHit]
      | some w => cases w <;> simp [patHit]

lemma textOrNull_cases (v : Option Value) (h : textOrNull v = true) :
    v = some Value.VNull ∨ ∃ s, v = some (Value.VStr s) := by
  cases v with
  | none => simp [textOrNull] at h
  | some w => cases w <;> simp_all [textOrNull]

lemma patsCheck_wf (row : Row) (col : String) :
    ∀ ps : List Pat, ps.all patCompiles = true →
      textOrNull (lookupVal row col) = true →
      patsCheck row col ps = .ok (ps.any (fun p => patHit p (lookupVal row col))) := by
  intro ps
  induction ps with
  | nil => intro _ _; rfl
  | cons p ps ih =>
      intro hall hv
      simp only [List.all_cons, Bool.and_eq_true] at hall
      obtain ⟨hp, hps⟩ := hall
      cases p with
      | bad => simp [patCompiles] at hp
      | ok r =>
          rcases textOrNull_cases _ hv with hlv | ⟨s, hlv⟩
          · simp [patsCheck, compilePat, hlv, patHit, ih hps hv]
          · by_cases hm : matchPre r s.data
            · simp [patsCheck, compilePat, hlv, patHit, hm]
            · rw [Bool.not_eq_true] at hm
              simp [patsCheck, compilePat, hlv, patHit, hm, ih hps hv]

lemma rme_wf (row : Row) :
    ∀ excludes : List ExcludeRule, excludesWellFormed row excludes = true →
      row_matches_excludes row excludes = .ok (specExcluded row excludes) := by
  intro excludes
  induction excludes with
  | nil => intro _; rfl
  | cons e es ih =>
      intro hw
      simp only [excludesWellFormed, List.all_cons, Bool.and_eq_true] at hw
      obtain ⟨⟨hpats, hval⟩, hes⟩ := hw
      have hes' : excludesWellFormed row es = true := by
        simp [excludesWellFormed, hes]
      have hpc := patsCheck_wf row e.column e.patterns hpats hval
      cases hb : e.patterns.any (fun p => patHit p (lookupVal row e.column)) with
      | true => simp [row_matches_excludes, hpc, hb, specExcluded]
      | false => simp [row_matches_excludes, hpc, hb, specExcluded, ih hes']

lemma specExcluded_exists (row : Row) (excludes : List ExcludeRule) :
    specExcluded row excludes = true ↔
      ∃ e ∈ excludes, ∃ p ∈ e.patterns, ∃ r s, p = Pat.ok r ∧
        lookupVal row e.column = some (Value.VStr s) ∧ matchPre r s.data = true := by
  simp only [specExcluded, List.any_eq_true, patHit_iff]

/-- C4: on well-formed input (every pattern compiles, every exclude column
holds null or text) `process_row` never raises, and it returns the
excluded sentinel `None` precisely when some exclude rule names a column
whose row value is non-null and matched from its start, case-insensitively,
by one of the rule's patterns; in particular a row whose excluded columns
are all null is never excluded. -/
theorem C4_exclude_iff (gp : ProviderMap) (row : Row) (cols : List ColumnRule)
    (excludes : List ExcludeRule)
    (hw : excludesWellFormed row excludes = true) :
    (∃ res, process_row gp row cols excludes = .ok res) ∧
    (process_row gp row cols excludes = .ok none ↔
      ∃ e ∈ excludes, ∃ p ∈ e.patterns, ∃ r s, p = Pat.ok r ∧
        lookupVal row e.column = some (Value.VStr s) ∧
        matchPre r s.data = true) := by
  have hrme := rme_wf row excludes hw
  rw [← specExcluded_exists row excludes]
  unfold process_row
  rw [hrme]
  cases hb : specExcluded row excludes with
  | true => simp
  | false => simp

/-- C4 witness: a matching prefix pattern excludes the row; the same row
with a null column value is not excluded. -/
theorem C4_exclude_iff_witness :
    process_row (fun _ _ => "") [("email", Value.VStr "a@example.com")] []
      [⟨"email", [Pat.ok (Regex.chr 'a')]⟩] = .ok none ∧
    process_row (fun _ _ => "") [("email", Value.VNull)] []
      [⟨"email", [Pat.ok (Regex.chr 'a')]⟩] ≠ .ok none :=
  ⟨(C4_exclude_iff (fun _ _ => "") [("email", Value.VStr "a@example.com")] []
      [⟨"email", [Pat.ok (Regex.chr 'a')]⟩] rfl).2.mpr
      ⟨⟨"email", [Pat.ok (Regex.chr 'a')]⟩, by simp, Pat.ok (Regex.chr 'a'),
        by simp, Regex.chr 'a', "a@example.com", rfl, rfl, rfl⟩,
   fun h =>
     absurd ((C4_exclude_iff (fun _ _ => "") [("email", Value.VNull)] []
       [⟨"email", [Pat.ok (Regex.chr 'a')]⟩] rfl).2.mp h) (by simp [lookupVal])⟩

/-- C8 counterexample: an invalid exclude pattern does not fail at
definition-load time — a run whose cursor yields no rows completes without
any error even though the pattern never compiles, while the compilation
error does surface during per-row processing as soon as a row is
evaluated. -/
theorem C8_counterexample :
    stagedRows (fun _ _ => "") [] [⟨"email", [Pat.bad]⟩] [] 5 2 = .ok [] ∧
    process_row (fun _ _ => "") [("email", Value.VStr "a")] []
      [⟨"email", [Pat.bad]⟩] = .error PyErr.reError := ⟨rfl, rfl⟩

/-- C8 (amended): exclude patterns are compiled inside per-row matching,
not at definition-load time: whenever the first exclude rule starts with a
pattern that does not compile, `process_row` raises the compilation error
for every row (even one whose column value is null, since compilation
precedes the null test), while a table whose cursor yields no rows never
raises it. -/
theorem C8_amended_compile_time (gp : ProviderMap) (row : Row)
    (cols : List ColumnRule) (c : String) (ps : List Pat)
    (rest : List ExcludeRule) (gp' : ProviderMap) (cols' : List ColumnRule)
    (excl' : List ExcludeRule) (total chunk : Nat) :
    process_row gp row cols (⟨c, Pat.bad :: ps⟩ :: rest) = .error PyErr.reError ∧
    stagedRows gp' cols' excl' [] total chunk = .ok [] := by
  constructor
  · rfl
  · simp [stagedRows, fetchBatches_nil, loadBatches]

/-! ## Claims about the bulk encoder (C3) -/

lemma foldl_append_string (l : List String) : ∀ s : String,
    l.foldl (fun r t => r ++ t) s = s ++ String.join l := by
  induction l with
  | nil => intro s; exact (String.append_empty s).symm
  | cons x t ih =>
      intro s
      show t.foldl (fun r t => r ++ t) (s ++ x) = s ++ String.join (x :: t)
      rw [ih (s ++ x)]
      have hj : String.join (x :: t) = x ++ String.join t := by
        show t.foldl (fun r t => r ++ t) ("" ++ x) = x ++ String.join t
        rw [String.empty_append, ih x]
      rw [hj, String.append_assoc]

lemma stringJoin_cons (x : String) (l : List String) :
    String.join (x :: l) = x ++ String.join l := by
  show l.foldl (fun r t => r ++ t) ("" ++ x) = x ++ String.join l
  rw [String.empty_append, foldl_append_string l x]

lemma foldl_encode (sep : Char) (data : List (List Value)) : ∀ s : String,
    data.foldl (fun buf row => buf ++ csvRow sep (row.map csvFieldOfValue)) s =
      s ++ amendedData2csv sep data := by
  induction data with
  | nil => intro s; exact (String.append_empty s).symm
  | cons r t ih =>
      intro s
      show t.foldl (fun buf row => buf ++ csvRow sep (row.map csvFieldOfValue))
        (s ++ csvRow sep (r.map csvFieldOfValue)) = s ++ amendedData2csv sep (r :: t)
      rw [ih (s ++ csvRow sep (r.map csvFieldOfValue))]
      have hacons : amendedData2csv sep (r :: t) =
          csvRow sep (r.map csvFieldOfValue) ++ amendedData2csv sep t := by
        unfold amendedData2csv
        rw [List.map_cons, stringJoin_cons]
      rw [hacons, String.append_assoc]

lemma map_renderField_id (sep : Char) : ∀ l : List String,
    (∀ f ∈ l, needsQuote sep f = false) → l.map (renderField sep) = l := by
  intro l
  induction l with
  | nil => intro _; rfl
  | cons x t ih =>
      intro h
      have hx : needsQuote sep x = false := h x (by simp)
      simp [renderField, hx, ih (fun f hf => h f (by simp [hf]))]

/-- C3 counterexample: a text value consisting of the csv quote character
`~` is emitted quoted-and-doubled by the source's csv writer, not in the
claimed plainly-joined form. -/
theorem C3_counterexample :
    data2csv copyDelim [[Value.VStr "~"]] = "~~~~\n" ∧
    claimData2csv copyDelim [[Value.VStr "~"]] = "~\n" ∧
    ("~~~~\n" : String) ≠ "~\n" := ⟨rfl, rfl, by decide⟩

/-- C3 (amended): the bulk encoder produces exactly the claimed per-value
encoding — null as the two-character `\N`, strings trimmed then
backslash-escaped, dicts JSON-serialized then escaped, other scalars in
literal textual form — with fields joined by the configured delimiter and
rows newline-terminated, except that the csv writer additionally wraps any
field containing the delimiter or the quote character `~` in `~` quotes
(doubling embedded `~`) and writes a row consisting of a single empty
field as the quoted empty string; on rows where no field triggers quoting,
the encoding is exactly as claimed. -/
theorem C3_amended_encoder (sep : Char) (data : List (List Value)) :
    data2csv sep data = amendedData2csv sep data ∧
    (rowsBenign sep data = true → data2csv sep data = claimData2csv sep data) := by
  have h1 : data2csv sep data = amendedData2csv sep data := by
    unfold data2csv
    rw [foldl_encode sep data "", String.empty_append]
  refine ⟨h1, ?_⟩
  intro hb
  rw [h1]
  unfold amendedData2csv claimData2csv
  refine congrArg String.join (List.map_congr_left ?_)
  intro row hrow
  have hben := List.all_eq_true.mp hb row hrow
  simp only [Bool.and_eq_true, decide_eq_true_eq] at hben
  obtain ⟨hne, hall⟩ := hben
  have hquote : ∀ f ∈ row.map csvFieldOfValue, needsQuote sep f = false := by
    intro f hf
    have := List.all_eq_true.mp hall f hf
    simpa using this
  unfold csvRow
  rw [if_neg hne, map_renderField_id sep _ hquote]

/-- C3 witness: on a benign row the claimed plain encoding is exact. -/
theorem C3_amended_encoder_witness :
    rowsBenign copyDelim [[Value.VNull, Value.VStr " a "]] = true ∧
    data2csv copyDelim [[Value.VNull, Value.VStr " a "]] =
      claimData2csv copyDelim [[Value.VNull, Value.VStr " a "]] :=
  ⟨rfl, (C3_amended_encoder copyDelim [[Value.VNull, Value.VStr " a "]]).2 rfl⟩

end PgAnon
